import Mathlib

/-!
# Scarlet Engine: events and narrowphase collision

A shallow embedding of

* `Core/Public/Event.h` (the multi-listener `Event` class),
* `Core/Public/CoreMinimal.h` (the world axes),
* `AchillesPhysics/Public/ColliderSystem.h` (the collider systems, of which
  only the declarations are available; their bodies are modelled from the
  written specification and marked as such).

Scalars (`float`) are embedded as rationals, `void*` as a natural number
address, and a `std::function<void(Args...)>` as a transformer of the state
`σ` of the surrounding program.
-/

set_option autoImplicit false

/-! ## glm vectors -/

namespace glm

/-- The vector type `glm::vec3`, with rational components. -/
@[ext]
structure vec3 where
  x : ℚ
  y : ℚ
  z : ℚ
deriving DecidableEq

namespace vec3

instance : Add vec3 := ⟨fun a b => ⟨a.x + b.x, a.y + b.y, a.z + b.z⟩⟩
instance : Sub vec3 := ⟨fun a b => ⟨a.x - b.x, a.y - b.y, a.z - b.z⟩⟩
instance : Neg vec3 := ⟨fun a => ⟨-a.x, -a.y, -a.z⟩⟩
instance : HMul ℚ vec3 vec3 := ⟨fun s a => ⟨s * a.x, s * a.y, s * a.z⟩⟩
instance : HDiv vec3 ℚ vec3 := ⟨fun a s => ⟨a.x / s, a.y / s, a.z / s⟩⟩

end vec3

/-- The dot product `glm::dot`. -/
def dot (a b : vec3) : ℚ := a.x * b.x + a.y * b.y + a.z * b.z

/-- The norm `glm::length`: the square root of `dot(v, v)`. The square root
belongs to the C++ library, not to the engine, and is rounded there; it is an
argument here, so that what is proved holds for every way of computing it. -/
def length (sqrt : ℚ → ℚ) (v : vec3) : ℚ := sqrt (dot v v)

/-- A computable square root on the rationals, exact on squares of rationals
and rounded down to a multiple of `1 / den` elsewhere; used to evaluate the
detectors on concrete inputs. -/
def sqrtQ (q : ℚ) : ℚ := (Nat.sqrt (q.num.toNat * q.den) : ℚ) / q.den

end glm

namespace ScarletEngine

/-! ## CoreMinimal.h -/

/-- The constant `WorldRight = glm::vec3(1.f, 0.f, 0.f)`. -/
def WorldRight : glm.vec3 := ⟨1, 0, 0⟩

/-- The constant `WorldUp = glm::vec3(0.f, 1.f, 0.f)`. -/
def WorldUp : glm.vec3 := ⟨0, 1, 0⟩

/-- The constant `WorldForward = glm::vec3(0.f, 0.f, 1.f)`. -/
def WorldForward : glm.vec3 := ⟨0, 0, 1⟩

/-! ## Event.h -/

/-- A `void*`: the address held by the pointer. -/
abbrev Ptr := Nat

/-- The null pointer, the default owner of `Event::Bind`. -/
def nullptr : Ptr := 0

/-- The callable type `std::function<void(Args...)>`: calling it with `args` transforms the
program state. -/
abbrev FunctionType (σ Args : Type) := Args → σ → σ

/-- The record `Event::CallbackData`. -/
structure CallbackData (σ Args : Type) where
  CallbackOwner : Ptr
  Func : FunctionType σ Args

/-- The class `Event<Args...>`: its only member is the array `Callbacks`. -/
structure Event (σ Args : Type) where
  Callbacks : List (CallbackData σ Args)

namespace Event

variable {σ Args : Type}

/-- A default-constructed event: `Callbacks` is empty. -/
def new : Event σ Args := { Callbacks := [] }

/-- The method `Event::Bind(const FunctionType& Callback, void* OwnerPtr)`:
`Callbacks.push_back({ OwnerPtr, Callback })`. The C++ default for `OwnerPtr`
is `nullptr`. -/
def Bind (ev : Event σ Args) (Callback : FunctionType σ Args) (OwnerPtr : Ptr) :
    Event σ Args :=
  { Callbacks := ev.Callbacks ++ [{ CallbackOwner := OwnerPtr, Func := Callback }] }

/-- The method `Event::Bind(CallerType Ptr, MemberFuncType Func)`: for each supported
arity the body is `Callbacks.push_back({ Ptr, std::bind(Func, Ptr, _1, ...) })`;
the object pointer is both the owner and the first argument of the bound
member function. -/
def BindMember (ev : Event σ Args) (P : Ptr) (Func : Ptr → Args → σ → σ) :
    Event σ Args :=
  { Callbacks := ev.Callbacks ++ [{ CallbackOwner := P, Func := Func P }] }

/-- The search `std::find_if(first, last, pred)` as an index: the position of the first
element satisfying `pred`, or the length of the list (the `end()` iterator)
when there is none. -/
def find_if {α : Type} (pred : α → Bool) : List α → Nat
  | [] => 0
  | x :: xs => if pred x then 0 else find_if pred xs + 1

/-- The method `Array::erase(It)`: remove the element at position `It`. -/
def erase {α : Type} : List α → Nat → List α
  | [], _ => []
  | _ :: xs, 0 => xs
  | x :: xs, It + 1 => x :: erase xs It

/-- The method `Event::Unbind(void* Ptr)`: find the first callback whose owner is `Ptr`
and erase it when the search did not reach `Callbacks.end()`. -/
def Unbind (ev : Event σ Args) (P : Ptr) : Event σ Args :=
  let It := find_if (fun Data : CallbackData σ Args => Data.CallbackOwner == P) ev.Callbacks
  if It ≠ ev.Callbacks.length then
    { Callbacks := erase ev.Callbacks It }
  else
    ev

/-- The method `Event::Broadcast(Args... args)`: call `Func(args...)` of every callback in
array order, threading the program state through the calls. -/
def Broadcast (ev : Event σ Args) (args : Args) (s : σ) : σ :=
  ev.Callbacks.foldl (fun st CallbackInfo => CallbackInfo.Func args st) s

/-- The method `Event::Clear()`: `Callbacks.clear()`. -/
def Clear (_ev : Event σ Args) : Event σ Args := { Callbacks := [] }

/-- One call of either overload of `Event::Bind`. -/
inductive BindCall (σ Args : Type) where
  | free (Callback : FunctionType σ Args) (OwnerPtr : Ptr)
  | member (P : Ptr) (Func : Ptr → Args → σ → σ)

/-- The callable that a `Bind` call registers. -/
def BindCall.callee : BindCall σ Args → FunctionType σ Args
  | .free Callback _ => Callback
  | .member P Func => Func P

/-- The owner pointer that a `Bind` call registers. -/
def BindCall.owner : BindCall σ Args → Ptr
  | .free _ OwnerPtr => OwnerPtr
  | .member P _ => P

/-- Perform one `Bind` call on an event. -/
def applyBind (ev : Event σ Args) : BindCall σ Args → Event σ Args
  | .free Callback OwnerPtr => ev.Bind Callback OwnerPtr
  | .member P Func => ev.BindMember P Func

/-- Perform a sequence of `Bind` calls, first to last. -/
def bindAll (ev : Event σ Args) (cs : List (BindCall σ Args)) : Event σ Args :=
  cs.foldl applyBind ev

/-- A callback that records its own identity and the arguments it was called
with at the end of a call log. -/
def logger (id : Nat) : FunctionType (List (Nat × Args)) Args :=
  fun args log => log ++ [(id, args)]

/-- An event with four logging callbacks, owned by 3, 7, 5 and 7; the third is
bound through the member-function overload on the object at address 5. -/
def sampleEvent : Event (List (Nat × Nat)) Nat :=
  bindAll new
    [.free (logger 0) 3, .free (logger 1) 7, .member 5 (fun P => logger P), .free (logger 3) 7]

end Event

/-! ## ColliderSystem.h

Only the declarations of the collider systems are available. The component
records and the bodies of the detectors and of the resolver are modelled from
the written specification of the physics layer. -/

namespace Achilles

/-- The record `IntersectionData`: the penetration depth and the direction in
which the first body moves to separate. -/
structure IntersectionData where
  Distance : ℚ
  Direction : glm.vec3
deriving DecidableEq

/-- Modelled from the spec: `SphereColliderComponent` (its header is not
available): a sphere is the position of the owning transform and a radius. -/
structure SphereColliderComponent where
  Center : glm.vec3
  Radius : ℚ
deriving DecidableEq

/-- Modelled from the spec: `BoxColliderComponent` (its header is not
available): an axis-aligned box is the position of the owning transform and
its half-extents. -/
structure BoxColliderComponent where
  Center : glm.vec3
  HalfExtents : glm.vec3
deriving DecidableEq

/-- Modelled from the spec: `RigidBodyComponent` (its header is not
available): inverse mass, zero for an immovable body, and velocity. -/
structure RigidBodyComponent where
  InverseMass : ℚ
  Velocity : glm.vec3
deriving DecidableEq

/-- Modelled from the spec: `TransformComponent` (its header is not
available): position, rotation and scale. -/
structure TransformComponent where
  Position : glm.vec3
  Rotation : glm.vec3
  Scale : glm.vec3
deriving DecidableEq

namespace SphereVsSphereColliderSystem

/-- Modelled from the spec: the body of
`SphereVsSphereColliderSystem::GetIntersection`, which is not available.
`delta = centerA - centerB`, `dist = |delta|`,
`distance = (radiusA + radiusB) - dist`, `direction = delta / dist`, and the
fallback axis `WorldUp` when `dist == 0`. -/
def GetIntersection (sqrt : ℚ → ℚ) (SphereA SphereB : SphereColliderComponent) :
    IntersectionData :=
  let delta := SphereA.Center - SphereB.Center
  let dist := glm.length sqrt delta
  { Distance := (SphereA.Radius + SphereB.Radius) - dist
    Direction := if dist = 0 then WorldUp else delta / dist }

/-- Modelled from the spec: the sphere-vs-sphere detector as a function to an
optional intersection result; an intersection holds iff
`dist < radiusA + radiusB`. -/
def detect (sqrt : ℚ → ℚ) (SphereA SphereB : SphereColliderComponent) :
    Option IntersectionData :=
  if glm.length sqrt (SphereA.Center - SphereB.Center) < SphereA.Radius + SphereB.Radius then
    some (GetIntersection sqrt SphereA SphereB)
  else
    none

/-- Modelled from the spec: the resolution solver for a detected pair,
declared as `SphereVsSphereColliderSystem::SolveIntersection` (body not
available). Positional correction: `Distance` is split between the bodies in
proportion to their inverse masses, the first body moving along `Direction`
and the second against it; nothing happens when both inverse masses are zero.
Velocity correction: when the relative velocity along `Direction` drives the
bodies together, that component, scaled by `1 + restitution`, is removed by
an impulse split in the same proportion. -/
def SolveIntersection (restitution : ℚ) (Hit : IntersectionData)
    (RbA : RigidBodyComponent) (TransA : TransformComponent)
    (RbB : RigidBodyComponent) (TransB : TransformComponent) :
    (RigidBodyComponent × TransformComponent) × (RigidBodyComponent × TransformComponent) :=
  if RbA.InverseMass = 0 ∧ RbB.InverseMass = 0 then
    ((RbA, TransA), (RbB, TransB))
  else
    let total := RbA.InverseMass + RbB.InverseMass
    let shareA := RbA.InverseMass / total
    let shareB := RbB.InverseMass / total
    let NewPosA := TransA.Position + (Hit.Distance * shareA) * Hit.Direction
    let NewPosB := TransB.Position - (Hit.Distance * shareB) * Hit.Direction
    let closing := glm.dot (RbA.Velocity - RbB.Velocity) Hit.Direction
    let impulse := if closing < 0 then -(1 + restitution) * closing else 0
    let NewVelA := RbA.Velocity + (impulse * shareA) * Hit.Direction
    let NewVelB := RbB.Velocity - (impulse * shareB) * Hit.Direction
    (({ RbA with Velocity := NewVelA }, { TransA with Position := NewPosA }),
     ({ RbB with Velocity := NewVelB }, { TransB with Position := NewPosB }))

end SphereVsSphereColliderSystem

namespace AABBvsAABBColliderSystem

/-- Modelled from the spec: the overlap of two boxes on one axis,
`(halfExtentsA_i + halfExtentsB_i) - |centerA_i - centerB_i|`. -/
def overlap (centerA halfA centerB halfB : ℚ) : ℚ :=
  (halfA + halfB) - |centerA - centerB|

/-- Modelled from the spec: the sign of the unit vector that points from B
toward the side of A on one axis (positive when the centres agree there). -/
def side (centerA centerB : ℚ) : ℚ :=
  if centerA < centerB then -1 else 1

/-- Modelled from the spec: the overlap of two boxes on the x axis. -/
def overlapX (BoxA BoxB : BoxColliderComponent) : ℚ :=
  overlap BoxA.Center.x BoxA.HalfExtents.x BoxB.Center.x BoxB.HalfExtents.x

/-- Modelled from the spec: the overlap of two boxes on the y axis. -/
def overlapY (BoxA BoxB : BoxColliderComponent) : ℚ :=
  overlap BoxA.Center.y BoxA.HalfExtents.y BoxB.Center.y BoxB.HalfExtents.y

/-- Modelled from the spec: the overlap of two boxes on the z axis. -/
def overlapZ (BoxA BoxB : BoxColliderComponent) : ℚ :=
  overlap BoxA.Center.z BoxA.HalfExtents.z BoxB.Center.z BoxB.HalfExtents.z

/-- Modelled from the spec: the box-vs-box detector run by
`AABBvsAABBColliderSystem::FixedUpdate`, whose body is not available. The
boxes intersect iff the overlap is positive on all three axes; the resolution
axis is the one with the minimum overlap (x before y before z on ties),
`Distance` is that overlap and `Direction` the signed unit vector along it. -/
def detect (BoxA BoxB : BoxColliderComponent) : Option IntersectionData :=
  let ox := overlapX BoxA BoxB
  let oy := overlapY BoxA BoxB
  let oz := overlapZ BoxA BoxB
  if 0 < ox ∧ 0 < oy ∧ 0 < oz then
    if ox ≤ oy ∧ ox ≤ oz then
      some { Distance := ox, Direction := side BoxA.Center.x BoxB.Center.x * WorldRight }
    else if oy ≤ oz then
      some { Distance := oy, Direction := side BoxA.Center.y BoxB.Center.y * WorldUp }
    else
      some { Distance := oz, Direction := side BoxA.Center.z BoxB.Center.z * WorldForward }
  else
    none

end AABBvsAABBColliderSystem

end Achilles

end ScarletEngine

/-! # Theorems -/

namespace glm

namespace vec3

@[simp] theorem add_x (a b : vec3) : (a + b).x = a.x + b.x := rfl
@[simp] theorem add_y (a b : vec3) : (a + b).y = a.y + b.y := rfl
@[simp] theorem add_z (a b : vec3) : (a + b).z = a.z + b.z := rfl
@[simp] theorem sub_x (a b : vec3) : (a - b).x = a.x - b.x := rfl
@[simp] theorem sub_y (a b : vec3) : (a - b).y = a.y - b.y := rfl
@[simp] theorem sub_z (a b : vec3) : (a - b).z = a.z - b.z := rfl
@[simp] theorem neg_x (a : vec3) : (-a).x = -a.x := rfl
@[simp] theorem neg_y (a : vec3) : (-a).y = -a.y := rfl
@[simp] theorem neg_z (a : vec3) : (-a).z = -a.z := rfl
@[simp] theorem smul_x (s : ℚ) (a : vec3) : (s * a).x = s * a.x := rfl
@[simp] theorem smul_y (s : ℚ) (a : vec3) : (s * a).y = s * a.y := rfl
@[simp] theorem smul_z (s : ℚ) (a : vec3) : (s * a).z = s * a.z := rfl
@[simp] theorem div_x (a : vec3) (s : ℚ) : (a / s).x = a.x / s := rfl
@[simp] theorem div_y (a : vec3) (s : ℚ) : (a / s).y = a.y / s := rfl
@[simp] theorem div_z (a : vec3) (s : ℚ) : (a / s).z = a.z / s := rfl

end vec3

theorem dot_sub_comm (a b : vec3) : dot (a - b) (a - b) = dot (b - a) (b - a) := by
  simp only [dot, vec3.sub_x, vec3.sub_y, vec3.sub_z]; ring

theorem length_sub_comm (sqrt : ℚ → ℚ) (a b : vec3) :
    length sqrt (a - b) = length sqrt (b - a) := by
  simp only [length, dot_sub_comm a b]

theorem length_sub_self (sqrt : ℚ → ℚ) (h0 : sqrt 0 = 0) (a : vec3) :
    length sqrt (a - a) = 0 := by
  simp [length, dot, h0]

theorem add_zero_mul (a v : vec3) : a + (0 : ℚ) * v = a := by
  ext <;> simp

theorem sub_zero_mul (a v : vec3) : a - (0 : ℚ) * v = a := by
  ext <;> simp

theorem sqrtQ_zero : sqrtQ 0 = 0 := by simp [sqrtQ]

end glm

namespace ScarletEngine

/-- C7: `WorldRight`, `WorldUp` and `WorldForward` are orthonormal: each has
squared length 1 (so `WorldUp` is a unit vector) and any two different ones
have dot product 0, in either order. -/
theorem world_axes_orthonormal :
    glm.dot WorldRight WorldRight = 1 ∧ glm.dot WorldUp WorldUp = 1
    ∧ glm.dot WorldForward WorldForward = 1
    ∧ glm.dot WorldRight WorldUp = 0 ∧ glm.dot WorldUp WorldRight = 0
    ∧ glm.dot WorldRight WorldForward = 0 ∧ glm.dot WorldForward WorldRight = 0
    ∧ glm.dot WorldUp WorldForward = 0 ∧ glm.dot WorldForward WorldUp = 0 := by
  refine ⟨?_, ?_, ?_, ?_, ?_, ?_, ?_, ?_, ?_⟩ <;>
    simp [glm.dot, WorldRight, WorldUp, WorldForward]

namespace Event

variable {σ Args : Type}

/-! ### Lemmas on the event operations -/

theorem applyBind_callbacks (ev : Event σ Args) (c : BindCall σ Args) :
    (applyBind ev c).Callbacks
      = ev.Callbacks ++ [{ CallbackOwner := c.owner, Func := c.callee }] := by
  cases c <;> rfl

theorem bindAll_callbacks (cs : List (BindCall σ Args)) (ev : Event σ Args) :
    (bindAll ev cs).Callbacks
      = ev.Callbacks
        ++ cs.map (fun c => ({ CallbackOwner := c.owner, Func := c.callee } : CallbackData σ Args)) := by
  induction cs generalizing ev with
  | nil => simp [bindAll]
  | cons c cs ih =>
    have h := ih (applyBind ev c)
    simp only [bindAll, List.foldl_cons] at h ⊢
    rw [h, applyBind_callbacks]
    simp

theorem find_if_eq_length {α : Type} (pred : α → Bool) (l : List α) :
    find_if pred l = l.length ↔ ∀ y ∈ l, pred y = false := by
  induction l with
  | nil => simp [find_if]
  | cons x xs ih =>
    simp only [find_if]
    by_cases hx : pred x = true
    · simp [hx]
    · simp [hx, ih]

theorem find_if_append_of_first {α : Type} (pred : α → Bool) (pre post : List α) (x : α)
    (hx : pred x = true) (hpre : ∀ y ∈ pre, pred y = false) :
    find_if pred (pre ++ x :: post) = pre.length := by
  induction pre with
  | nil => simp [find_if, hx]
  | cons p ps ih =>
    have hp : pred p = false := hpre p (by simp)
    have := ih (fun y hy => hpre y (by simp [hy]))
    simp [find_if, hp, this]

theorem erase_append_length {α : Type} (pre post : List α) (x : α) :
    erase (pre ++ x :: post) pre.length = pre ++ post := by
  induction pre with
  | nil => simp [erase]
  | cons p ps ih => simp [erase, ih]

/-- Split a list at the first element satisfying a predicate. -/
theorem exists_first_split {α : Type} (pred : α → Bool) (l : List α)
    (h : ∃ y ∈ l, pred y = true) :
    ∃ pre x post, l = pre ++ x :: post ∧ pred x = true ∧ ∀ y ∈ pre, pred y = false := by
  induction l with
  | nil => simp at h
  | cons a as ih =>
    by_cases ha : pred a = true
    · exact ⟨[], a, as, by simp, ha, by simp⟩
    · have h2 : ∃ y ∈ as, pred y = true := by
        obtain ⟨y, hy, hp⟩ := h
        rcases List.mem_cons.mp hy with rfl | hy
        · exact absurd hp ha
        · exact ⟨y, hy, hp⟩
      obtain ⟨pre, x, post, hl, hx, hpre⟩ := ih h2
      refine ⟨a :: pre, x, post, by simp [hl], hx, ?_⟩
      intro y hy
      rcases List.mem_cons.mp hy with rfl | hy
      · simpa using ha
      · exact hpre y hy

/-- The effect of `Unbind` when the first callback owned by `P` sits between `pre` and `post`. -/
theorem unbind_of_split (ev : Event σ Args) (P : Ptr)
    (pre post : List (CallbackData σ Args)) (x : CallbackData σ Args)
    (hl : ev.Callbacks = pre ++ x :: post) (hx : x.CallbackOwner = P)
    (hpre : ∀ y ∈ pre, y.CallbackOwner ≠ P) :
    (ev.Unbind P).Callbacks = pre ++ post := by
  have hf : find_if (fun Data : CallbackData σ Args => Data.CallbackOwner == P) ev.Callbacks
      = pre.length := by
    rw [hl]
    apply find_if_append_of_first
    · simpa using hx
    · intro y hy
      simpa using hpre y hy
  have hne : pre.length ≠ ev.Callbacks.length := by
    rw [hl]; simp
  simp only [Unbind, hf, hne, ne_eq, not_false_eq_true, if_true]
  rw [hl, erase_append_length]

/-- The effect of `Unbind` when no callback is owned by `P`. -/
theorem unbind_of_absent (ev : Event σ Args) (P : Ptr)
    (h : ∀ y ∈ ev.Callbacks, y.CallbackOwner ≠ P) :
    ev.Unbind P = ev := by
  have hf : find_if (fun Data : CallbackData σ Args => Data.CallbackOwner == P) ev.Callbacks
      = ev.Callbacks.length := by
    rw [find_if_eq_length]
    intro y hy
    simpa using h y hy
  simp [Unbind, hf]

theorem callbacks_injective (a b : Event σ Args) (h : a.Callbacks = b.Callbacks) : a = b := by
  cases a; cases b; simp_all

theorem broadcast_append (ev : Event σ Args) (l : List (CallbackData σ Args)) (args : Args)
    (s : σ) :
    Broadcast { Callbacks := ev.Callbacks ++ l } args s
      = l.foldl (fun st CallbackInfo => CallbackInfo.Func args st) (ev.Broadcast args s) := by
  simp [Broadcast, List.foldl_append]

theorem broadcast_bindAll (cs : List (BindCall σ Args)) (ev : Event σ Args) (args : Args)
    (s : σ) :
    (bindAll ev cs).Broadcast args s
      = cs.foldl (fun st c => c.callee args st) (ev.Broadcast args s) := by
  simp [Broadcast, bindAll_callbacks, List.foldl_append, List.foldl_map]

theorem foldl_logger (ids : List (Nat × Ptr)) (args : Args) (log : List (Nat × Args)) :
    ids.foldl (fun st p => logger p.1 args st) log = log ++ ids.map (fun p => (p.1, args)) := by
  induction ids generalizing log with
  | nil => simp
  | cons p ps ih =>
    simp only [List.foldl_cons, List.map_cons]
    rw [ih]
    simp [logger]

/-! ### The claims about `Event` -/

/-- C6: after the `Bind` calls `c1..cn` (either overload) on a fresh event,
the event holds exactly the callables of `c1..cn` in binding order, and
`Broadcast(args)` runs exactly those, each once, with `args`, in that order;
on an event that already held callbacks the same calls run after the earlier
ones. With callbacks that log their identity and arguments, the log after a
broadcast is the list of bound identities, in order, each paired with `args`.
Callbacks are callable and act on the program state only, never on the event
itself. -/
theorem broadcast_after_binds (cs : List (BindCall σ Args)) (args : Args) (s : σ) :
    (bindAll new cs).Callbacks.map (fun d => d.Func) = cs.map BindCall.callee
    ∧ (bindAll new cs).Callbacks.length = cs.length
    ∧ (bindAll new cs).Broadcast args s = cs.foldl (fun st c => c.callee args st) s
    ∧ (∀ ev : Event σ Args, (bindAll ev cs).Broadcast args s
          = cs.foldl (fun st c => c.callee args st) (ev.Broadcast args s))
    ∧ (∀ ids : List (Nat × Ptr),
        (bindAll (new : Event (List (Nat × Args)) Args)
            (ids.map (fun p => BindCall.free (logger p.1) p.2))).Broadcast args []
          = ids.map (fun p => (p.1, args))) := by
  refine ⟨?_, ?_, ?_, ?_, ?_⟩
  · simp [bindAll_callbacks, new, Function.comp_def]
  · simp [bindAll_callbacks, new]
  · rw [broadcast_bindAll]; rfl
  · intro ev; exact broadcast_bindAll cs ev args s
  · intro ids
    rw [broadcast_bindAll, List.foldl_map]
    simp only [BindCall.callee]
    rw [foldl_logger]
    simp [Broadcast, new]

/-- Witness for C6: broadcasting 42 on the sample event logs the four bound
callbacks in binding order, each once, each with 42. -/
theorem broadcast_after_binds_witness :
    sampleEvent.Broadcast 42 [] = [(0, 42), (1, 42), (5, 42), (3, 42)] :=
  ((broadcast_after_binds
      [.free (logger 0) 3, .free (logger 1) 7, .member 5 (fun P => logger P), .free (logger 3) 7]
      (42 : Nat) ([] : List (Nat × Nat))).2.2.1).trans rfl

/-- C8: `Unbind(P)` removes exactly the earliest-bound callback owned by `P`:
when some callback is owned by `P` the list splits as `pre ++ x :: post` with
`x` the first one owned by `P`, and afterwards the list is `pre ++ post`
(everything else, later callbacks of `P` included, kept in order), one shorter;
when no callback is owned by `P` the event is unchanged. -/
theorem unbind_removes_first_owned (ev : Event σ Args) (P : Ptr) :
    ((∃ y ∈ ev.Callbacks, y.CallbackOwner = P) →
        ∃ pre x post, ev.Callbacks = pre ++ x :: post ∧ x.CallbackOwner = P
          ∧ (∀ y ∈ pre, y.CallbackOwner ≠ P)
          ∧ (ev.Unbind P).Callbacks = pre ++ post
          ∧ (ev.Unbind P).Callbacks.length + 1 = ev.Callbacks.length)
    ∧ (∀ pre x post, ev.Callbacks = pre ++ x :: post → x.CallbackOwner = P
          → (∀ y ∈ pre, y.CallbackOwner ≠ P) → (ev.Unbind P).Callbacks = pre ++ post)
    ∧ ((∀ y ∈ ev.Callbacks, y.CallbackOwner ≠ P) →
        ev.Unbind P = ev ∧ (ev.Unbind P).Callbacks.length = ev.Callbacks.length) := by
  refine ⟨?_, ?_, ?_⟩
  · intro h
    have h2 : ∃ y ∈ ev.Callbacks,
        (fun Data : CallbackData σ Args => Data.CallbackOwner == P) y = true := by
      obtain ⟨y, hy, hp⟩ := h
      exact ⟨y, hy, by simpa using hp⟩
    obtain ⟨pre, x, post, hl, hx, hpre⟩ := exists_first_split _ _ h2
    have hx2 : x.CallbackOwner = P := by simpa using hx
    have hpre2 : ∀ y ∈ pre, y.CallbackOwner ≠ P := fun y hy => by simpa using hpre y hy
    have hu := unbind_of_split ev P pre post x hl hx2 hpre2
    refine ⟨pre, x, post, hl, hx2, hpre2, hu, ?_⟩
    rw [hu, hl]; simp; omega
  · intro pre x post hl hx hpre
    exact unbind_of_split ev P pre post x hl hx hpre
  · intro h
    have := unbind_of_absent ev P h
    exact ⟨this, by rw [this]⟩

/-- Witness for C8: on the sample event (owners 3, 7, 5, 7) `Unbind(7)` drops
the first callback owned by 7 and keeps the second, leaving owners 3, 5, 7 and
one callback fewer; `Unbind(4)` changes nothing. -/
theorem unbind_removes_first_owned_witness :
    (∃ y ∈ sampleEvent.Callbacks, y.CallbackOwner = 7)
    ∧ (sampleEvent.Unbind 7).Callbacks.map (fun d => d.CallbackOwner) = [3, 5, 7]
    ∧ (sampleEvent.Unbind 7).Broadcast 42 [] = [(0, 42), (5, 42), (3, 42)]
    ∧ (sampleEvent.Unbind 7).Callbacks.length + 1 = sampleEvent.Callbacks.length
    ∧ sampleEvent.Unbind 4 = sampleEvent := by
  have h7 : ∃ y ∈ sampleEvent.Callbacks, y.CallbackOwner = 7 :=
    ⟨⟨7, logger 1⟩, by simp [sampleEvent, bindAll, applyBind, Bind, BindMember, new], rfl⟩
  have h4 : ∀ y ∈ sampleEvent.Callbacks, y.CallbackOwner ≠ 4 := by
    intro y hy
    simp only [sampleEvent, bindAll, applyBind, Bind, BindMember, new, List.foldl_cons,
      List.foldl_nil, List.nil_append, List.cons_append, List.mem_cons, List.mem_singleton,
      List.not_mem_nil, or_false] at hy
    rcases hy with rfl | rfl | rfl | rfl <;> decide
  obtain ⟨_, _, _, _, _, _, _, hlen⟩ := (unbind_removes_first_owned sampleEvent 7).1 h7
  exact ⟨h7, rfl, rfl, hlen, ((unbind_removes_first_owned sampleEvent 4).2.2 h4).1⟩

/-- C9: when no current callback is owned by `P`, `Bind(Callback, P)` (or the
member-function `Bind` on object `P`) followed by `Unbind(P)` gives back the
event as it was, so `Broadcast` behaves as before; when an earlier callback is
already owned by `P`, the pair removes that earlier callback (the result is the
list after `Unbind(P)` alone) and keeps the newly bound one at the end. -/
theorem bind_then_unbind (ev : Event σ Args) (Callback : FunctionType σ Args)
    (Func : Ptr → Args → σ → σ) (P : Ptr) :
    ((∀ y ∈ ev.Callbacks, y.CallbackOwner ≠ P) →
        (ev.Bind Callback P).Unbind P = ev
        ∧ (ev.BindMember P Func).Unbind P = ev
        ∧ (∀ args s, ((ev.Bind Callback P).Unbind P).Broadcast args s = ev.Broadcast args s)
        ∧ (∀ args s, ((ev.BindMember P Func).Unbind P).Broadcast args s
              = ev.Broadcast args s))
    ∧ ((∃ y ∈ ev.Callbacks, y.CallbackOwner = P) →
        ((ev.Bind Callback P).Unbind P).Callbacks
            = (ev.Unbind P).Callbacks ++ [{ CallbackOwner := P, Func := Callback }]
        ∧ ((ev.BindMember P Func).Unbind P).Callbacks
            = (ev.Unbind P).Callbacks ++ [{ CallbackOwner := P, Func := Func P }]
        ∧ (ev.Unbind P).Callbacks.length + 1 = ev.Callbacks.length) := by
  constructor
  · intro h
    have h1 : (ev.Bind Callback P).Unbind P = ev := by
      apply callbacks_injective
      have := unbind_of_split (ev.Bind Callback P) P ev.Callbacks []
        { CallbackOwner := P, Func := Callback } rfl rfl h
      simpa using this
    have h2 : (ev.BindMember P Func).Unbind P = ev := by
      apply callbacks_injective
      have := unbind_of_split (ev.BindMember P Func) P ev.Callbacks []
        { CallbackOwner := P, Func := Func P } rfl rfl h
      simpa using this
    exact ⟨h1, h2, fun _ _ => by rw [h1], fun _ _ => by rw [h2]⟩
  · intro h
    have h2 : ∃ y ∈ ev.Callbacks,
        (fun Data : CallbackData σ Args => Data.CallbackOwner == P) y = true := by
      obtain ⟨y, hy, hp⟩ := h
      exact ⟨y, hy, by simpa using hp⟩
    obtain ⟨pre, x, post, hl, hx, hpre⟩ := exists_first_split _ _ h2
    have hx2 : x.CallbackOwner = P := by simpa using hx
    have hpre2 : ∀ y ∈ pre, y.CallbackOwner ≠ P := fun y hy => by simpa using hpre y hy
    have hu := unbind_of_split ev P pre post x hl hx2 hpre2
    refine ⟨?_, ?_, ?_⟩
    · have := unbind_of_split (ev.Bind Callback P) P pre
        (post ++ [{ CallbackOwner := P, Func := Callback }]) x
        (by simp [Bind, hl]) hx2 hpre2
      rw [this, hu]; simp
    · have := unbind_of_split (ev.BindMember P Func) P pre
        (post ++ [{ CallbackOwner := P, Func := Func P }]) x
        (by simp [BindMember, hl]) hx2 hpre2
      rw [this, hu]; simp
    · rw [hu, hl]; simp; omega

/-- Witness for C9: on the sample event (owners 3, 7, 5, 7) binding a callback
for the unused owner 4 and unbinding 4 gives the sample event back; binding for
owner 7 and unbinding 7 drops the earliest callback of 7 and keeps the new one,
leaving owners 3, 5, 7, 7. -/
theorem bind_then_unbind_witness :
    (sampleEvent.Bind (logger 9) 4).Unbind 4 = sampleEvent
    ∧ (sampleEvent.BindMember 4 (fun P => logger P)).Unbind 4 = sampleEvent
    ∧ ((sampleEvent.Bind (logger 9) 7).Unbind 7).Callbacks.map (fun d => d.CallbackOwner)
        = [3, 5, 7, 7]
    ∧ ((sampleEvent.Bind (logger 9) 7).Unbind 7).Broadcast 42 []
        = [(0, 42), (5, 42), (3, 42), (9, 42)] := by
  have h4 : ∀ y ∈ sampleEvent.Callbacks, y.CallbackOwner ≠ 4 := by
    intro y hy
    simp only [sampleEvent, bindAll, applyBind, Bind, BindMember, new, List.foldl_cons,
      List.foldl_nil, List.nil_append, List.cons_append, List.mem_cons, List.mem_singleton,
      List.not_mem_nil, or_false] at hy
    rcases hy with rfl | rfl | rfl | rfl <;> decide
  have h7 : ∃ y ∈ sampleEvent.Callbacks, y.CallbackOwner = 7 :=
    ⟨⟨7, logger 1⟩, by simp [sampleEvent, bindAll, applyBind, Bind, BindMember, new], rfl⟩
  have hA := (bind_then_unbind sampleEvent (logger 9) (fun P => logger P) 4).1 h4
  have hP := (bind_then_unbind sampleEvent (logger 9) (fun P => logger P) 7).2 h7
  refine ⟨hA.1, hA.2.1, ?_, rfl⟩
  rw [hP.1]
  rfl

end Event

namespace Achilles

namespace SphereVsSphereColliderSystem

/-! ### The sphere-vs-sphere detector -/

theorem sqrtQ_nine_quarters : glm.sqrtQ (9 / 4) = 3 / 2 := by
  have h1 : ((9 : ℚ) / 4).num = 9 := by norm_num
  have h2 : ((9 : ℚ) / 4).den = 4 := by norm_num
  have h3 : Nat.sqrt (Int.toNat 9 * 4) = 6 := by
    have : Int.toNat 9 * 4 = 36 := by decide
    rw [this]; norm_num
  simp only [glm.sqrtQ, h1, h2, h3]
  norm_num

/-- C1 (as amended): `Distance` is the same for (A,B) and (B,A) for every pair
of spheres, and so is the outcome of the intersection test; `Direction` for
(A,B) is the negation of `Direction` for (B,A) whenever the centre distance
`dist` is not zero; when `dist` is zero both orders return the fallback axis
`WorldUp`. -/
theorem sphere_detect_symmetry (sqrt : ℚ → ℚ) (A B : SphereColliderComponent) :
    (GetIntersection sqrt A B).Distance = (GetIntersection sqrt B A).Distance
    ∧ ((detect sqrt A B).isSome ↔ (detect sqrt B A).isSome)
    ∧ (glm.length sqrt (A.Center - B.Center) ≠ 0 →
        (GetIntersection sqrt A B).Direction = -(GetIntersection sqrt B A).Direction)
    ∧ (glm.length sqrt (A.Center - B.Center) = 0 →
        (GetIntersection sqrt A B).Direction = WorldUp
        ∧ (GetIntersection sqrt B A).Direction = WorldUp) := by
  have hlen := glm.length_sub_comm sqrt A.Center B.Center
  refine ⟨?_, ?_, ?_, ?_⟩
  · simp only [GetIntersection, hlen]
    ring
  · simp only [detect, hlen, add_comm B.Radius A.Radius]
    split <;> simp
  · intro h
    have h2 : glm.length sqrt (B.Center - A.Center) ≠ 0 := by rwa [← hlen]
    simp only [GetIntersection, h, h2, if_false]
    rw [← hlen]
    ext <;> simp <;> ring
  · intro h
    have h2 : glm.length sqrt (B.Center - A.Center) = 0 := by rwa [← hlen]
    simp [GetIntersection, h, h2]

/-- C1 (as stated) fails: two spheres of radii 1 and 2 with the same centre
(1,2,3) get the direction `WorldUp` in both orders, and `WorldUp` is not its
own negation. -/
theorem sphere_direction_not_negated_at_coincident_centres :
    (0 : ℚ) < 1 ∧ (0 : ℚ) < 2
    ∧ (GetIntersection glm.sqrtQ ⟨⟨1, 2, 3⟩, 1⟩ ⟨⟨1, 2, 3⟩, 2⟩).Direction = WorldUp
    ∧ (GetIntersection glm.sqrtQ ⟨⟨1, 2, 3⟩, 2⟩ ⟨⟨1, 2, 3⟩, 1⟩).Direction = WorldUp
    ∧ (GetIntersection glm.sqrtQ ⟨⟨1, 2, 3⟩, 1⟩ ⟨⟨1, 2, 3⟩, 2⟩).Direction
        ≠ -(GetIntersection glm.sqrtQ ⟨⟨1, 2, 3⟩, 2⟩ ⟨⟨1, 2, 3⟩, 1⟩).Direction := by
  have hd : glm.length glm.sqrtQ ((⟨1, 2, 3⟩ : glm.vec3) - ⟨1, 2, 3⟩) = 0 :=
    glm.length_sub_self glm.sqrtQ glm.sqrtQ_zero _
  refine ⟨by norm_num, by norm_num, ?_, ?_, ?_⟩
  · simp [GetIntersection, hd]
  · simp [GetIntersection, hd]
  · simp only [GetIntersection, hd, if_true]
    intro h
    have := congrArg glm.vec3.y h
    simp [WorldUp] at this
    norm_num at this

/-- Witness for C1: the scenario of the specification, a unit sphere at the
origin and a unit sphere at (1.5, 0, 0), has non-zero centre distance; the
detector returns depth 0.5 with direction (-1,0,0), and the opposite direction
for the swapped pair. -/
theorem sphere_detect_symmetry_witness :
    glm.length glm.sqrtQ ((⟨0, 0, 0⟩ : glm.vec3) - ⟨3 / 2, 0, 0⟩) ≠ 0
    ∧ GetIntersection glm.sqrtQ ⟨⟨0, 0, 0⟩, 1⟩ ⟨⟨3 / 2, 0, 0⟩, 1⟩ = ⟨1 / 2, ⟨-1, 0, 0⟩⟩
    ∧ (GetIntersection glm.sqrtQ ⟨⟨0, 0, 0⟩, 1⟩ ⟨⟨3 / 2, 0, 0⟩, 1⟩).Direction
        = -(GetIntersection glm.sqrtQ ⟨⟨3 / 2, 0, 0⟩, 1⟩ ⟨⟨0, 0, 0⟩, 1⟩).Direction := by
  have hd : glm.length glm.sqrtQ ((⟨0, 0, 0⟩ : glm.vec3) - ⟨3 / 2, 0, 0⟩) = 3 / 2 := by
    have : glm.dot ((⟨0, 0, 0⟩ : glm.vec3) - ⟨3 / 2, 0, 0⟩) (⟨0, 0, 0⟩ - ⟨3 / 2, 0, 0⟩)
        = 9 / 4 := by
      simp [glm.dot]; norm_num
    rw [glm.length, this, sqrtQ_nine_quarters]
  have hne : glm.length glm.sqrtQ ((⟨0, 0, 0⟩ : glm.vec3) - ⟨3 / 2, 0, 0⟩) ≠ 0 := by
    rw [hd]; norm_num
  refine ⟨hne, ?_, (sphere_detect_symmetry glm.sqrtQ ⟨⟨0, 0, 0⟩, 1⟩ ⟨⟨3 / 2, 0, 0⟩, 1⟩).2.2.1 hne⟩
  simp only [GetIntersection, hd]
  norm_num
  ext <;> simp

/-- C5: when the centre distance `dist` is zero the detector returns the
fixed axis `WorldUp` as `Direction` and `radiusA + radiusB` as `Distance`,
whatever the spheres are; this is the case whenever the centres coincide (for
a square root with `sqrt 0 = 0`); and `WorldUp` has squared length 1. The
quotient `delta / dist` is not part of the result. -/
theorem sphere_coincident_fallback (sqrt : ℚ → ℚ) (A B : SphereColliderComponent) :
    (glm.length sqrt (A.Center - B.Center) = 0 →
        GetIntersection sqrt A B = ⟨A.Radius + B.Radius, WorldUp⟩)
    ∧ (sqrt 0 = 0 → A.Center = B.Center →
        glm.length sqrt (A.Center - B.Center) = 0
        ∧ GetIntersection sqrt A B = ⟨A.Radius + B.Radius, WorldUp⟩)
    ∧ glm.dot WorldUp WorldUp = 1 := by
  have key : glm.length sqrt (A.Center - B.Center) = 0 →
      GetIntersection sqrt A B = ⟨A.Radius + B.Radius, WorldUp⟩ := by
    intro h
    simp [GetIntersection, h]
  refine ⟨key, ?_, by simp [glm.dot, WorldUp]⟩
  intro h0 hc
  have hd : glm.length sqrt (A.Center - B.Center) = 0 := by
    rw [hc]; exact glm.length_sub_self sqrt h0 _
  exact ⟨hd, key hd⟩

/-- Witness for C5: spheres of radii 1 and 2 sharing the centre (1,2,3) get
depth 3 along `WorldUp`. -/
theorem sphere_coincident_fallback_witness :
    glm.length glm.sqrtQ ((⟨1, 2, 3⟩ : glm.vec3) - ⟨1, 2, 3⟩) = 0
    ∧ GetIntersection glm.sqrtQ ⟨⟨1, 2, 3⟩, 1⟩ ⟨⟨1, 2, 3⟩, 2⟩ = ⟨1 + 2, ⟨0, 1, 0⟩⟩ :=
  (sphere_coincident_fallback glm.sqrtQ ⟨⟨1, 2, 3⟩, 1⟩ ⟨⟨1, 2, 3⟩, 2⟩).2.1 glm.sqrtQ_zero rfl

/-! ### The resolution solver -/

/-- C2: the resolver leaves a body with `InverseMass == 0` exactly as it was,
rigid body (velocity) and transform (position) alike, whichever side of the
pair it is on and whatever the intersection data and restitution are; when
both bodies have `InverseMass == 0` the call changes nothing at all. -/
theorem solve_keeps_static_bodies (restitution : ℚ) (Hit : IntersectionData)
    (RbA : RigidBodyComponent) (TransA : TransformComponent)
    (RbB : RigidBodyComponent) (TransB : TransformComponent) :
    (RbA.InverseMass = 0 →
        (SolveIntersection restitution Hit RbA TransA RbB TransB).1 = (RbA, TransA))
    ∧ (RbB.InverseMass = 0 →
        (SolveIntersection restitution Hit RbA TransA RbB TransB).2 = (RbB, TransB))
    ∧ (RbA.InverseMass = 0 → RbB.InverseMass = 0 →
        SolveIntersection restitution Hit RbA TransA RbB TransB
          = ((RbA, TransA), (RbB, TransB))) := by
  obtain ⟨invA, velA⟩ := RbA
  obtain ⟨invB, velB⟩ := RbB
  obtain ⟨posA, rotA, sclA⟩ := TransA
  obtain ⟨posB, rotB, sclB⟩ := TransB
  refine ⟨?_, ?_, ?_⟩
  · intro h
    simp only at h
    subst h
    unfold SolveIntersection
    split
    · rfl
    · simp only [zero_div, mul_zero, glm.add_zero_mul]
  · intro h
    simp only at h
    subst h
    unfold SolveIntersection
    split
    · rfl
    · simp only [zero_div, mul_zero, glm.sub_zero_mul]
  · intro hA hB
    simp only at hA hB
    subst hA hB
    simp [SolveIntersection]

/-- Witness for C2: the sphere scenario of the specification. A (dynamic,
inverse mass 1, at the origin, moving toward B) and B (static, at (1.5,0,0))
overlap by 0.5 along (-1,0,0); the resolver moves A to (-0.5,0,0) and stops
its approach, and returns B unchanged. -/
theorem solve_keeps_static_bodies_witness :
    (SolveIntersection 0 ⟨1 / 2, ⟨-1, 0, 0⟩⟩
        ⟨1, ⟨2, 0, 0⟩⟩ ⟨⟨0, 0, 0⟩, ⟨0, 0, 0⟩, ⟨1, 1, 1⟩⟩
        ⟨0, ⟨0, 0, 0⟩⟩ ⟨⟨3 / 2, 0, 0⟩, ⟨0, 0, 0⟩, ⟨1, 1, 1⟩⟩).2
      = (⟨0, ⟨0, 0, 0⟩⟩, ⟨⟨3 / 2, 0, 0⟩, ⟨0, 0, 0⟩, ⟨1, 1, 1⟩⟩)
    ∧ (SolveIntersection 0 ⟨1 / 2, ⟨-1, 0, 0⟩⟩
        ⟨1, ⟨2, 0, 0⟩⟩ ⟨⟨0, 0, 0⟩, ⟨0, 0, 0⟩, ⟨1, 1, 1⟩⟩
        ⟨0, ⟨0, 0, 0⟩⟩ ⟨⟨3 / 2, 0, 0⟩, ⟨0, 0, 0⟩, ⟨1, 1, 1⟩⟩).1
      = (⟨1, ⟨0, 0, 0⟩⟩, ⟨⟨-1 / 2, 0, 0⟩, ⟨0, 0, 0⟩, ⟨1, 1, 1⟩⟩) := by
  refine ⟨(solve_keeps_static_bodies 0 ⟨1 / 2, ⟨-1, 0, 0⟩⟩
        ⟨1, ⟨2, 0, 0⟩⟩ ⟨⟨0, 0, 0⟩, ⟨0, 0, 0⟩, ⟨1, 1, 1⟩⟩
        ⟨0, ⟨0, 0, 0⟩⟩ ⟨⟨3 / 2, 0, 0⟩, ⟨0, 0, 0⟩, ⟨1, 1, 1⟩⟩).2.1 rfl, ?_⟩
  simp only [SolveIntersection]
  norm_num [glm.dot]
  constructor <;> ext <;> simp

end SphereVsSphereColliderSystem

namespace AABBvsAABBColliderSystem

/-! ### The box-vs-box detector -/

/-- C4: the box-vs-box detector reports an intersection iff the overlap is
positive on all three axes; a reported result has `Distance` equal to the
minimum of the three overlaps and `Direction` equal to the signed unit vector
(sign +1 or -1) along an axis whose overlap is that minimum. Boxes of
half-extents (1,1,1) at the origin and at (1.9,0,0) resolve along x with
`Distance` 0.1, the direction pointing from B toward A. -/
theorem aabb_detect_min_overlap (A B : BoxColliderComponent) :
    ((detect A B).isSome ↔ 0 < overlapX A B ∧ 0 < overlapY A B ∧ 0 < overlapZ A B)
    ∧ (∀ r, detect A B = some r →
        r.Distance = min (overlapX A B) (min (overlapY A B) (overlapZ A B))
        ∧ ((r.Distance = overlapX A B
              ∧ r.Direction = side A.Center.x B.Center.x * WorldRight)
          ∨ (r.Distance = overlapY A B
              ∧ r.Direction = side A.Center.y B.Center.y * WorldUp)
          ∨ (r.Distance = overlapZ A B
              ∧ r.Direction = side A.Center.z B.Center.z * WorldForward)))
    ∧ (∀ a b : ℚ, side a b = 1 ∨ side a b = -1)
    ∧ detect ⟨⟨0, 0, 0⟩, ⟨1, 1, 1⟩⟩ ⟨⟨19 / 10, 0, 0⟩, ⟨1, 1, 1⟩⟩
        = some ⟨1 / 10, ⟨-1, 0, 0⟩⟩ := by
  refine ⟨?_, ?_, ?_, ?_⟩
  · simp only [detect]
    split
    · rename_i h
      split
      · simp [h]
      · split <;> simp [h]
    · rename_i h
      simp [h]
  · intro r hr
    simp only [detect] at hr
    split at hr
    · split at hr
      · rename_i h
        have hr2 := Option.some.inj hr
        subst hr2
        refine ⟨?_, Or.inl ⟨rfl, rfl⟩⟩
        simp [h.1, h.2]
      · rename_i h
        split at hr
        · rename_i h2
          have hr2 := Option.some.inj hr
          subst hr2
          refine ⟨?_, Or.inr (Or.inl ⟨rfl, rfl⟩)⟩
          have h3 : overlapY A B ≤ overlapX A B := by
            by_contra hc
            push_neg at hc
            exact h ⟨le_of_lt hc, le_trans (le_of_lt hc) h2⟩
          simp [min_eq_left h2, min_eq_right h3]
        · rename_i h2
          have hr2 := Option.some.inj hr
          subst hr2
          refine ⟨?_, Or.inr (Or.inr ⟨rfl, rfl⟩)⟩
          push_neg at h2
          have h3 : overlapZ A B ≤ overlapX A B := by
            by_contra hc
            push_neg at hc
            by_cases hxy : overlapX A B ≤ overlapY A B
            · exact h ⟨hxy, le_of_lt hc⟩
            · push_neg at hxy
              linarith
          simp [min_eq_right (le_of_lt h2), min_eq_right h3]
    · simp at hr
  · intro a b
    simp only [side]
    split <;> simp
  · simp only [detect, overlapX, overlapY, overlapZ, overlap, side]
    norm_num [abs_of_neg, abs_of_nonneg, WorldRight]
    ext <;> simp

/-- Witness for C4: for the unit-half-extent boxes at the origin and at
(1.9,0,0) the reported depth 0.1 is the minimum of the overlaps 0.1, 2 and 2;
with the second box at (2,0,0), face to face, nothing is reported. -/
theorem aabb_detect_min_overlap_witness :
    (1 / 10 : ℚ)
      = min (overlapX ⟨⟨0, 0, 0⟩, ⟨1, 1, 1⟩⟩ ⟨⟨19 / 10, 0, 0⟩, ⟨1, 1, 1⟩⟩)
          (min (overlapY ⟨⟨0, 0, 0⟩, ⟨1, 1, 1⟩⟩ ⟨⟨19 / 10, 0, 0⟩, ⟨1, 1, 1⟩⟩)
            (overlapZ ⟨⟨0, 0, 0⟩, ⟨1, 1, 1⟩⟩ ⟨⟨19 / 10, 0, 0⟩, ⟨1, 1, 1⟩⟩))
    ∧ overlapY ⟨⟨0, 0, 0⟩, ⟨1, 1, 1⟩⟩ ⟨⟨19 / 10, 0, 0⟩, ⟨1, 1, 1⟩⟩ = 2
    ∧ detect ⟨⟨0, 0, 0⟩, ⟨1, 1, 1⟩⟩ ⟨⟨2, 0, 0⟩, ⟨1, 1, 1⟩⟩ = none := by
  refine ⟨((aabb_detect_min_overlap ⟨⟨0, 0, 0⟩, ⟨1, 1, 1⟩⟩
      ⟨⟨19 / 10, 0, 0⟩, ⟨1, 1, 1⟩⟩).2.1 ⟨1 / 10, ⟨-1, 0, 0⟩⟩
      (aabb_detect_min_overlap ⟨⟨0, 0, 0⟩, ⟨1, 1, 1⟩⟩ ⟨⟨19 / 10, 0, 0⟩, ⟨1, 1, 1⟩⟩).2.2.2).1,
    ?_, ?_⟩
  · simp [overlapY, overlap]; norm_num
  · simp only [detect, overlapX, overlapY, overlapZ, overlap]
    norm_num [abs_of_neg]

end AABBvsAABBColliderSystem

end Achilles

end ScarletEngine
